import Mathlib

/-
Verification of the storage registry and virtual-path routing core
(operations/storage.go and db/storage.go of the alist repository).

The registry `storagesMap` is modelled as an association list from virtual
path to driver, the balance-cursor map `balanceMap` as an association list
from actual virtual path to cursor, and the metadata repository as a list of
storage rows.  External effects (driver Init/Drop, database I/O) are
modelled by explicit outcome flags so that every partial-failure path of the
lifecycle operations is representable.
-/

namespace AList

/-- Storage configuration row (model.Storage): identity id, normalized mount
path, driver type name, display index, modification timestamp, and the
serialized backend-specific addition blob. -/
structure Storage where
  id : Nat
  mountPath : String
  driver : String
  index : Int
  modified : Nat
  addition : String
deriving DecidableEq, Repr

/-- Modelled from the spec: a backend driver instance (external collaborator,
not under src).  It owns exactly one Storage's live state and exposes it via
`GetStorage`; `initOk` and `dropOk` are the outcomes of its fallible `Init`
and `Drop` lifecycle hooks. -/
structure Driver where
  storage : Storage
  initOk : Bool
  dropOk : Bool
deriving DecidableEq, Repr

/-- Error taxonomy of the routing core (spec section 7): NotFound,
UnsupportedDriver, ImmutableFieldViolation, PersistenceFailure,
DriverLifecycleFailure, and contextual wrapping (errors.WithMessage). -/
inductive Err where
  | notFound (what : String)
  | unsupportedDriver
  | immutableField
  | persistence (op : String)
  | lifecycle (op : String)
  | wrapped (msg : String) (cause : Err)
deriving DecidableEq, Repr

/-- Synthetic directory entry (model.Object): name, size, modified
timestamp, folder flag. -/
structure Obj where
  name : String
  size : Nat
  modified : Nat
  isFolder : Bool
deriving DecidableEq, Repr

/-- The in-memory registry `storagesMap`: virtual path to driver. -/
abbrev Reg := List (String × Driver)

/-- The balance-cursor map `balanceMap`: actual virtual path to cursor. -/
abbrev BMap := List (String × Nat)

/-- Association-list lookup (MapOf.Load). -/
def lkup {α : Type} : List (String × α) → String → Option α
  | [], _ => none
  | e :: t, k => if e.1 = k then some e.2 else lkup t k

/-- Association-list store (MapOf.Store): the new binding replaces any
binding of the same key. -/
def alStore {α : Type} (m : List (String × α)) (k : String) (v : α) : List (String × α) :=
  (k, v) :: m.filter (fun e => decide (e.1 ≠ k))

/-- Association-list delete (MapOf.Delete). -/
def alErase {α : Type} (m : List (String × α)) (k : String) : List (String × α) :=
  m.filter (fun e => decide (e.1 ≠ k))

/-- Values snapshot of the registry (MapOf.Values). -/
def regValues (reg : Reg) : List Driver :=
  reg.map Prod.snd

/-- Byte-wise lexicographic less-or-equal on character lists, the order Go
string comparison induces on the ASCII mount paths used here. -/
def lexLe : List Char → List Char → Bool
  | [], _ => true
  | _ :: _, [] => false
  | a :: t1, b :: t2 => decide (a < b) || (a == b && lexLe t1 t2)

/-- The balance-group suffix marker. -/
def markerStr : String := ".balance"

/-- Substring occurrence test on character lists. -/
def hasSub (pat : List Char) : List Char → Bool
  | [] => pat.isEmpty
  | c :: t => pat.isPrefixOf (c :: t) || hasSub pat t

/-- Truncate a character list at the start of the last occurrence of `pat`;
without an occurrence the list is unchanged. -/
def cutLastSub (pat : List Char) : List Char → List Char
  | [] => []
  | c :: t =>
    if pat.isPrefixOf (c :: t) && !(hasSub pat t) then []
    else c :: cutLastSub pat t

/-- Modelled from the spec: utils.GetActualVirtualPath (not under src) — a
mount's virtual path with any balance-group suffix marker removed, stripping
from the last occurrence of the marker. -/
def GetActualVirtualPath (p : String) : String :=
  String.mk (cutLastSub markerStr.data p.data)

/-- Modelled from the spec: utils.IsBalance (not under src) — whether a
mount path carries the balance-group suffix marker. -/
def IsBalance (p : String) : Bool :=
  hasSub markerStr.data p.data

/-- Modelled from the spec: utils.StandardizePath (not under src) — the
trailing slash is stripped except for the root. -/
def StandardizePath (p : String) : String :=
  if p = "/" then p
  else if p.data.getLast? = some ('/') then String.mk p.data.dropLast
  else p

/-- Prefix test on strings (strings.HasPrefix). -/
def hasPfx (pre s : String) : Bool :=
  pre.data.isPrefixOf s.data

/-- Strip a leading occurrence of `pre` (strings.TrimPrefix). -/
def trimPfx (pre s : String) : String :=
  if pre.data.isPrefixOf s.data then String.mk (s.data.drop pre.data.length) else s

/-- First slash-separated segment of a string (strings.Split(s, slash)[0]). -/
def firstSeg (s : String) : String :=
  String.mk (s.data.takeWhile (fun c => decide (c ≠ '/')))

/-- Actual virtual path of a registry entry as getStoragesByPath uses it:
the driver's mount path with the balance marker stripped, the root mapped to
the empty prefix. -/
def effVP (d : Driver) : String :=
  let vp := GetActualVirtualPath d.storage.mountPath
  if vp = "/" then String.mk [] else vp

/-- Candidate test of getStoragesByPath: the queried path equals the entry's
actual virtual path or extends it across a slash. -/
def matchesPath (path : String) (d : Driver) : Bool :=
  path == effVP d || hasPfx ((effVP d).push ('/')) path

/-- Slash count of an entry's actual virtual path (strings.Count with a
one-character pattern counts character occurrences). -/
def scD (d : Driver) : Nat :=
  (effVP d).data.count ('/')

/-- One Range step of getStoragesByPath: skip non-candidates, drop shallower
candidates, restart the accumulator on a strictly deeper candidate, append
an equally deep one. -/
def gsbpStep (path : String) (acc : List Driver × Nat) (e : String × Driver) : List Driver × Nat :=
  if matchesPath path e.2 then
    if scD e.2 < acc.2 then acc
    else if acc.2 < scD e.2 then ([e.2], scD e.2)
    else (acc.1 ++ [e.2], acc.2)
  else acc

/-- Mount-path order used by the final sort of getStoragesByPath. -/
def leMP (a b : Driver) : Prop :=
  lexLe a.storage.mountPath.data b.storage.mountPath.data = true

instance : DecidableRel leMP :=
  fun a b => inferInstanceAs (Decidable (lexLe a.storage.mountPath.data b.storage.mountPath.data = true))

/-- getStoragesByPath: longest (deepest) prefix match over the registry,
balance siblings included, sorted by mount path for deterministic output. -/
def getStoragesByPath (reg : Reg) (path : String) : List Driver :=
  List.insertionSort leMP (reg.foldl (gsbpStep path) ([], 0)).1

/-- GetStorageByVirtualPath: exact registry lookup, NotFound if absent. -/
def GetStorageByVirtualPath (reg : Reg) (virtualPath : String) : Except Err Driver :=
  match lkup reg virtualPath with
  | some d => Except.ok d
  | none => Except.error (Err.notFound virtualPath)

/-- Display order of the virtual-file synthesizer: Index ascending, mount
path ascending on ties. -/
def leIdxMP (a b : Driver) : Prop :=
  a.storage.index < b.storage.index ∨
    (a.storage.index = b.storage.index ∧
      lexLe a.storage.mountPath.data b.storage.mountPath.data = true)

instance : DecidableRel leIdxMP :=
  fun a b =>
    inferInstanceAs (Decidable (a.storage.index < b.storage.index ∨
      (a.storage.index = b.storage.index ∧
        lexLe a.storage.mountPath.data b.storage.mountPath.data = true)))

/-- One loop step of GetStorageVirtualFilesByPath: skip balance members,
mount paths not strictly longer than the prefix, non-prefixed mount paths
and duplicate first segments; otherwise emit a synthetic folder entry. -/
def gsvfStep (p : String) (acc : List Obj × List String) (d : Driver) : List Obj × List String :=
  if IsBalance d.storage.mountPath then acc
  else if d.storage.mountPath.data.length ≤ p.data.length then acc
  else if hasPfx p d.storage.mountPath = false then acc
  else
    let name := firstSeg (trimPfx p d.storage.mountPath)
    if name ∈ acc.2 then acc
    else (acc.1 ++ [⟨name, 0, d.storage.modified, true⟩], acc.2 ++ [name])

/-- GetStorageVirtualFilesByPath: sort the registry values by (Index, mount
path), normalize the prefix, and emit one synthetic folder per distinct
first path segment below the prefix. -/
def GetStorageVirtualFilesByPath (reg : Reg) (pre : String) : List Obj :=
  let storages := List.insertionSort leIdxMP (regValues reg)
  let p0 := StandardizePath pre
  let p := if p0 = "/" then p0 else p0.push ('/')
  (storages.foldl (gsvfStep p) ([], [])).1

/-- GetBalancedStorage: resolve the path; none on zero matches, the unique
match directly, and for a balance group the cursor-advanced member. -/
def GetBalancedStorage (reg : Reg) (bm : BMap) (path : String) : Option Driver × BMap :=
  let p := StandardizePath path
  match getStoragesByPath reg p with
  | [] => (none, bm)
  | [d] => (some d, bm)
  | d0 :: d1 :: rest =>
    let g := d0 :: d1 :: rest
    let vp := GetActualVirtualPath d0.storage.mountPath
    match lkup bm vp with
    | some cur =>
      let i := (cur + 1) % g.length
      (g.get? i, alStore bm vp i)
    | none => (g.get? 0, alStore bm vp 0)

/-- Sequence of results of consecutive GetBalancedStorage calls on one path,
threading the cursor map. -/
def balancedCalls (reg : Reg) (path : String) : BMap → Nat → List (Option Driver)
  | _, 0 => []
  | bm, n + 1 =>
    let r := GetBalancedStorage reg bm path
    r.1 :: balancedCalls reg path r.2 n

/-- db.GetStorageById: first row with the id, NotFound when missing. -/
def dbGetStorageById (db : List Storage) (id : Nat) : Except Err Storage :=
  match db.find? (fun r => r.id == id) with
  | some s => Except.ok s
  | none => Except.error (Err.notFound ("storage"))

/-- db.UpdateStorage (gorm Save): replace the row with the same id, insert
when absent. -/
def dbSave (db : List Storage) (s : Storage) : List Storage :=
  if db.any (fun r => r.id == s.id) then db.map (fun r => if r.id = s.id then s else r)
  else db ++ [s]

/-- db.DeleteStorageById: remove the row with the id. -/
def dbDeleteById (db : List Storage) (id : Nat) : List Storage :=
  db.filter (fun r => decide (r.id ≠ id))

/-- Modelled from the spec: the repository assigns the id on first persist
(gorm auto-increment, external). -/
def freshId (db : List Storage) : Nat :=
  (db.map Storage.id).foldr max 0 + 1

/-- db.CreateStorage: insert the row, the repository assigning its id. -/
def dbCreate (db : List Storage) (s : Storage) : Storage × List Storage :=
  let s1 := { s with id := freshId db }
  (s1, db ++ [s1])

/-- Driver.Drop outcome: releases resources, may fail. -/
def Driver.dropResult (d : Driver) : Except Err Unit :=
  if d.dropOk then Except.ok () else Except.error (Err.lifecycle ("drop"))

/-- Driver.Init outcome: on success the driver binds the given storage
configuration, exposed afterwards by GetStorage. -/
def Driver.initRun (d : Driver) (s : Storage) : Except Err Driver :=
  if d.initOk then Except.ok { d with storage := s } else Except.error (Err.lifecycle ("init"))

/-- Combined durable and in-memory state: repository rows and registry. -/
structure World where
  db : List Storage
  reg : Reg
deriving DecidableEq, Repr

/-- CreateStorage: normalize, look up the driver constructor (GetDriverNew,
modelled from the spec as a factory table), persist (assigning the id),
Init, and only then register under the normalized mount path. -/
def CreateStorage (tab : List (String × Driver)) (createOk : Bool) (now : Nat)
    (w : World) (s0 : Storage) : World × Option Err :=
  let np := StandardizePath s0.mountPath
  let s1 := { s0 with modified := now, mountPath := np }
  match lkup tab s0.driver with
  | none => (w, some (Err.wrapped ("failed get driver new") Err.unsupportedDriver))
  | some d0 =>
    if createOk = false then
      (w, some (Err.wrapped ("failed create storage in database") (Err.persistence ("create"))))
    else
      let pr := dbCreate w.db s1
      match d0.initRun pr.1 with
      | Except.error e =>
        ({ w with db := pr.2 }, some (Err.wrapped ("failed init storage but storage is already created") e))
      | Except.ok d1 =>
        ({ w with db := pr.2, reg := alStore w.reg np d1 }, none)

/-- UpdateStorage: load the old row, reject a driver change, persist, look
up the registry by the old mount path, delete the old key when the mount
path changed, then Drop, Init and re-register under the new mount path. -/
def UpdateStorage (now : Nat) (saveOk : Bool) (w : World) (s0 : Storage) : World × Option Err :=
  match dbGetStorageById w.db s0.id with
  | Except.error e => (w, some (Err.wrapped ("failed get old storage") e))
  | Except.ok old =>
    if old.driver ≠ s0.driver then (w, some Err.immutableField)
    else
      let np := StandardizePath s0.mountPath
      let s1 := { s0 with modified := now, mountPath := np }
      if saveOk = false then
        (w, some (Err.wrapped ("failed update storage in database") (Err.persistence ("save"))))
      else
        let db1 := dbSave w.db s1
        let found := lkup w.reg old.mountPath
        let reg1 := if old.mountPath ≠ np then alErase w.reg old.mountPath else w.reg
        match found with
        | none =>
          ({ w with db := db1, reg := reg1 },
            some (Err.wrapped ("failed get storage driver") (Err.notFound old.mountPath)))
        | some d =>
          match d.dropResult with
          | Except.error e =>
            ({ w with db := db1, reg := reg1 }, some (Err.wrapped ("failed drop storage") e))
          | Except.ok _ =>
            match d.initRun s1 with
            | Except.error e =>
              ({ w with db := db1, reg := reg1 }, some (Err.wrapped ("failed init storage") e))
            | Except.ok d1 =>
              ({ w with db := db1, reg := alStore reg1 np d1 }, none)

/-- DeleteStorageById: load the row, resolve its driver, Drop, delete the
row, and only as the final step remove the registry entry. -/
def DeleteStorageById (delOk : Bool) (w : World) (id : Nat) : World × Option Err :=
  match dbGetStorageById w.db id with
  | Except.error e => (w, some (Err.wrapped ("failed get storage") e))
  | Except.ok st =>
    match GetStorageByVirtualPath w.reg st.mountPath with
    | Except.error e => (w, some (Err.wrapped ("failed get storage driver") e))
    | Except.ok d =>
      match d.dropResult with
      | Except.error e => (w, some (Err.wrapped ("failed drop storage") e))
      | Except.ok _ =>
        if delOk = false then
          (w, some (Err.wrapped ("failed delete storage in database") (Err.persistence ("delete"))))
        else
          ({ w with db := dbDeleteById w.db id, reg := alErase w.reg st.mountPath }, none)

/-! Association-list facts about the registry and cursor-map operations. -/

theorem lkup_some_mem {α : Type} {m : List (String × α)} {k : String} {v : α}
    (h : lkup m k = some v) : (k, v) ∈ m := by
  induction m with
  | nil => simp [lkup] at h
  | cons e t ih =>
    obtain ⟨e1, e2⟩ := e
    by_cases hk : e1 = k
    · subst hk
      rw [lkup, if_pos rfl] at h
      injection h with h
      subst h
      exact List.mem_cons_self _ _
    · rw [lkup, if_neg hk] at h
      exact List.mem_cons_of_mem _ (ih h)

theorem lkup_filter_ne {α : Type} (m : List (String × α)) (k k' : String) (hne : k' ≠ k) :
    lkup (m.filter (fun e => decide (e.1 ≠ k))) k' = lkup m k' := by
  induction m with
  | nil => rfl
  | cons e t ih =>
    by_cases hk : e.1 = k
    · rw [List.filter_cons, if_neg (by simp [hk])]
      rw [lkup, if_neg (by rw [hk]; exact fun h => hne h.symm)]
      exact ih
    · rw [List.filter_cons, if_pos (by simp [hk])]
      rw [lkup, lkup]
      by_cases hk' : e.1 = k'
      · rw [if_pos hk', if_pos hk']
      · rw [if_neg hk', if_neg hk']
        exact ih

theorem lkup_alStore_self {α : Type} (m : List (String × α)) (k : String) (v : α) :
    lkup (alStore m k v) k = some v := by
  simp [alStore, lkup]

theorem lkup_alStore_ne {α : Type} (m : List (String × α)) (k : String) (v : α) (k' : String)
    (h : k' ≠ k) : lkup (alStore m k v) k' = lkup m k' := by
  rw [alStore, lkup, if_neg (fun hh => h hh.symm)]
  exact lkup_filter_ne m k k' h

theorem lkup_alErase_self {α : Type} (m : List (String × α)) (k : String) :
    lkup (alErase m k) k = none := by
  induction m with
  | nil => rfl
  | cons e t ih =>
    rw [alErase, List.filter_cons]
    by_cases hk : e.1 = k
    · rw [if_neg (by simp [hk])]
      exact ih
    · rw [if_pos (by simp [hk])]
      rw [lkup, if_neg hk]
      exact ih

theorem mem_alErase {α : Type} {m : List (String × α)} {k : String} {e : String × α} :
    e ∈ alErase m k ↔ e ∈ m ∧ e.1 ≠ k := by
  simp [alErase]

/-! Lexicographic order facts used by the deterministic sorts. -/

theorem lexLe_cons_iff {a b : Char} {t1 t2 : List Char} :
    lexLe (a :: t1) (b :: t2) = true ↔ a < b ∨ (a = b ∧ lexLe t1 t2 = true) := by
  simp [lexLe]

theorem lexLe_total (x y : List Char) : lexLe x y = true ∨ lexLe y x = true := by
  induction x generalizing y with
  | nil => left; rfl
  | cons a t ih =>
    cases y with
    | nil => right; rfl
    | cons b u =>
      rcases lt_trichotomy a b with h | h | h
      · left; rw [lexLe_cons_iff]; exact Or.inl h
      · subst h
        rcases ih u with h1 | h1
        · left; rw [lexLe_cons_iff]; exact Or.inr ⟨rfl, h1⟩
        · right; rw [lexLe_cons_iff]; exact Or.inr ⟨rfl, h1⟩
      · right; rw [lexLe_cons_iff]; exact Or.inl h

theorem lexLe_trans {x y z : List Char} (h1 : lexLe x y = true) (h2 : lexLe y z = true) :
    lexLe x z = true := by
  induction x generalizing y z with
  | nil => rfl
  | cons a t ih =>
    cases y with
    | nil => simp [lexLe] at h1
    | cons b u =>
      cases z with
      | nil => simp [lexLe] at h2
      | cons c v =>
        rw [lexLe_cons_iff] at h1 h2 ⊢
        rcases h1 with hab | ⟨hab, ht1⟩ <;> rcases h2 with hbc | ⟨hbc, ht2⟩
        · exact Or.inl (lt_trans hab hbc)
        · rw [← hbc]; exact Or.inl hab
        · rw [hab]; exact Or.inl hbc
        · exact Or.inr ⟨hab.trans hbc, ih ht1 ht2⟩

theorem lexLe_antisymm {x y : List Char} (h1 : lexLe x y = true) (h2 : lexLe y x = true) :
    x = y := by
  induction x generalizing y with
  | nil =>
    cases y with
    | nil => rfl
    | cons b u => simp [lexLe] at h2
  | cons a t ih =>
    cases y with
    | nil => simp [lexLe] at h1
    | cons b u =>
      rw [lexLe_cons_iff] at h1 h2
      rcases h1 with hab | ⟨hab, ht1⟩
      · rcases h2 with hba | ⟨hba, _⟩
        · exact absurd hba (lt_asymm hab)
        · exact absurd (hba ▸ hab) (lt_irrefl a)
      · subst hab
        rcases h2 with hba | ⟨_, ht2⟩
        · exact absurd hba (lt_irrefl a)
        · rw [ih ht1 ht2]

theorem strData_inj {x y : String} (h : x.data = y.data) : x = y := by
  cases x
  cases y
  exact congrArg String.mk h

instance : IsTotal Driver leMP :=
  ⟨fun a b => lexLe_total _ _⟩

instance : IsTrans Driver leMP :=
  ⟨fun _ _ _ h1 h2 => lexLe_trans h1 h2⟩

/-- Strict companion of the mount-path order: nondecreasing and distinct. -/
def ltNeMP (a b : Driver) : Prop :=
  leMP a b ∧ a.storage.mountPath ≠ b.storage.mountPath

instance : IsAntisymm Driver ltNeMP :=
  ⟨fun _ _ h1 h2 => absurd (strData_inj (lexLe_antisymm h1.1 h2.1)) h1.2⟩

/-! Characterization of getStoragesByPath as a deepest-prefix-match filter. -/

/-- Drivers of the registry that are candidates for a path, in entry order. -/
def cands (path : String) (l : List (String × Driver)) : List Driver :=
  (l.map Prod.snd).filter (matchesPath path)

/-- Maximal slash count of the actual virtual paths of the candidates. -/
def maxSC (path : String) (l : List (String × Driver)) : Nat :=
  ((cands path l).map scD).foldr max 0

theorem cands_cons (path : String) (e : String × Driver) (t : List (String × Driver)) :
    cands path (e :: t) =
      if matchesPath path e.2 = true then e.2 :: cands path t else cands path t := by
  rw [cands, List.map_cons, List.filter_cons]
  rfl

theorem le_foldr_max {L : List Nat} {x : Nat} (h : x ∈ L) : x ≤ L.foldr max 0 := by
  induction L with
  | nil => cases h
  | cons a t ih =>
    rcases List.mem_cons.mp h with rfl | h1
    · exact le_max_left _ _
    · exact le_trans (ih h1) (le_max_right _ _)

theorem foldr_max_le {L : List Nat} {b : Nat} (h : ∀ x ∈ L, x ≤ b) : L.foldr max 0 ≤ b := by
  induction L with
  | nil => exact Nat.zero_le b
  | cons a t ih =>
    exact max_le (h a (List.mem_cons_self a t)) (ih fun x hx => h x (List.mem_cons_of_mem a hx))

theorem scD_le_maxSC {path : String} {d : Driver} {l : List (String × Driver)}
    (h : d ∈ cands path l) : scD d ≤ maxSC path l :=
  le_foldr_max (List.mem_map_of_mem scD h)

theorem maxSC_cons (path : String) (e : String × Driver) (t : List (String × Driver)) :
    maxSC path (e :: t) =
      if matchesPath path e.2 = true then max (scD e.2) (maxSC path t) else maxSC path t := by
  by_cases hm : matchesPath path e.2 = true
  · rw [maxSC, cands_cons, if_pos hm, if_pos hm, List.map_cons, List.foldr_cons]
    rfl
  · rw [maxSC, cands_cons, if_neg hm, if_neg hm]
    rfl

theorem gsbp_foldl (path : String) (l : List (String × Driver)) :
    ∀ (s : List Driver) (c : Nat),
      l.foldl (gsbpStep path) (s, c) =
        if c < maxSC path l then
          ((cands path l).filter (fun d => scD d = maxSC path l), maxSC path l)
        else
          (s ++ (cands path l).filter (fun d => scD d = c), c) := by
  induction l with
  | nil =>
    intro s c
    rw [List.foldl_nil, if_neg (by simp [maxSC, cands])]
    simp [cands]
  | cons e t ih =>
    intro s c
    rw [List.foldl_cons]
    by_cases hm : matchesPath path e.2 = true
    · rcases Nat.lt_trichotomy (scD e.2) c with hlt | heq | hgt
      · have hstep : gsbpStep path (s, c) e = (s, c) := by
          rw [gsbpStep, if_pos hm, if_pos hlt]
        rw [hstep, ih s c, cands_cons, if_pos hm, maxSC_cons, if_pos hm]
        by_cases hc : c < maxSC path t
        · rw [if_pos hc, if_pos (lt_of_lt_of_le hc (le_max_right _ _))]
          rw [max_eq_right (le_of_lt (lt_trans hlt hc))]
          rw [List.filter_cons, if_neg (by simp [Nat.ne_of_lt (lt_trans hlt hc)])]
        · rw [if_neg hc, if_neg (by
            rw [Nat.not_lt] at hc ⊢
            exact max_le (le_of_lt hlt) hc)]
          rw [List.filter_cons, if_neg (by simp [Nat.ne_of_lt hlt])]
      · have hstep : gsbpStep path (s, c) e = (s ++ [e.2], c) := by
          rw [gsbpStep, if_pos hm, if_neg (by rw [heq]; exact lt_irrefl c),
            if_neg (by rw [heq]; exact lt_irrefl c)]
        rw [hstep, ih (s ++ [e.2]) c, cands_cons, if_pos hm, maxSC_cons, if_pos hm]
        by_cases hc : c < maxSC path t
        · rw [if_pos hc, if_pos (lt_of_lt_of_le hc (le_max_right _ _))]
          rw [max_eq_right (by rw [heq]; exact le_of_lt hc)]
          rw [List.filter_cons, if_neg (by simp; rw [heq]; exact Nat.ne_of_lt hc)]
        · rw [if_neg hc, if_neg (by
            rw [Nat.not_lt] at hc ⊢
            exact max_le (le_of_eq heq) hc)]
          rw [List.filter_cons, if_pos (by simp [heq])]
          rw [List.append_assoc]
          rfl
      · have hstep : gsbpStep path (s, c) e = ([e.2], scD e.2) := by
          rw [gsbpStep, if_pos hm, if_neg (by exact Nat.not_lt.mpr (le_of_lt hgt)), if_pos hgt]
        rw [hstep, ih [e.2] (scD e.2), cands_cons, if_pos hm, maxSC_cons, if_pos hm]
        by_cases hc : scD e.2 < maxSC path t
        · rw [if_pos hc, if_pos (lt_trans hgt (lt_of_lt_of_le hc (le_max_right _ _)))]
          rw [max_eq_right (le_of_lt hc)]
          rw [List.filter_cons, if_neg (by simp [Nat.ne_of_lt hc])]
        · rw [if_neg hc, if_pos (lt_of_lt_of_le hgt (le_max_left _ _))]
          rw [max_eq_left (Nat.not_lt.mp hc)]
          rw [List.filter_cons, if_pos (by simp)]
          rfl
    · have hstep : gsbpStep path (s, c) e = (s, c) := by
        rw [gsbpStep, if_neg hm]
      rw [hstep, ih s c, cands_cons, if_neg hm, maxSC_cons, if_neg hm]

theorem gsbp_result (reg : Reg) (path : String) :
    (reg.foldl (gsbpStep path) ([], 0)).1 =
      (cands path reg).filter (fun d => scD d = maxSC path reg) := by
  rw [gsbp_foldl path reg [] 0]
  by_cases h0 : 0 < maxSC path reg
  · rw [if_pos h0]
  · rw [if_neg h0]
    have : maxSC path reg = 0 := Nat.eq_zero_of_le_zero (Nat.not_lt.mp h0)
    rw [this, List.nil_append]

theorem mem_getStoragesByPath_iff {reg : Reg} {path : String} {d : Driver} :
    d ∈ getStoragesByPath reg path ↔ d ∈ cands path reg ∧ scD d = maxSC path reg := by
  rw [getStoragesByPath,
    (List.perm_insertionSort leMP (reg.foldl (gsbpStep path) ([], 0)).1).mem_iff,
    gsbp_result, List.mem_filter]
  simp

/-- C1: for every registry state and path, getStoragesByPath returns exactly
the registered drivers that are candidates (the path equals their actual
virtual path — root meaning the empty prefix — or extends it across a
slash) and whose actual virtual path has the maximum slash count among all
candidates. -/
theorem c1_resolve_deepest (reg : Reg) (path : String) (d : Driver) :
    d ∈ getStoragesByPath reg path ↔
      (d ∈ regValues reg ∧ matchesPath path d = true ∧
        ∀ d', d' ∈ regValues reg → matchesPath path d' = true → scD d' ≤ scD d) := by
  rw [mem_getStoragesByPath_iff]
  constructor
  · rintro ⟨hc, hmax⟩
    have hval : d ∈ regValues reg ∧ matchesPath path d = true := by
      have := List.mem_filter.mp hc
      exact ⟨this.1, this.2⟩
    refine ⟨hval.1, hval.2, fun d' hd' hm' => ?_⟩
    have hc' : d' ∈ cands path reg := List.mem_filter.mpr ⟨hd', hm'⟩
    rw [hmax]
    exact scD_le_maxSC hc'
  · rintro ⟨hval, hm, hall⟩
    have hc : d ∈ cands path reg := List.mem_filter.mpr ⟨hval, hm⟩
    refine ⟨hc, le_antisymm (scD_le_maxSC hc) ?_⟩
    apply foldr_max_le
    intro x hx
    rcases List.mem_map.mp hx with ⟨d', hd', rfl⟩
    have := List.mem_filter.mp hd'
    exact hall d' this.1 this.2

/-! Determinism of the resolver under registry iteration-order changes. -/

theorem foldr_max_eq_of_perm {L1 L2 : List Nat} (h : L1.Perm L2) :
    L1.foldr max 0 = L2.foldr max 0 :=
  le_antisymm (foldr_max_le fun _ hx => le_foldr_max (h.mem_iff.mp hx))
    (foldr_max_le fun _ hx => le_foldr_max (h.mem_iff.mpr hx))

theorem gsbp_sorted (reg : Reg) (path : String) :
    List.Sorted leMP (getStoragesByPath reg path) :=
  List.sorted_insertionSort leMP _

theorem gsbp_det {reg reg' : Reg} {path : String}
    (hpw : reg.Pairwise (fun a b => a.2.storage.mountPath ≠ b.2.storage.mountPath))
    (hperm : reg.Perm reg') :
    getStoragesByPath reg path = getStoragesByPath reg' path := by
  have hc : (cands path reg).Perm (cands path reg') :=
    (hperm.map Prod.snd).filter (matchesPath path)
  have hmax : maxSC path reg = maxSC path reg' := foldr_max_eq_of_perm (hc.map scD)
  have hf : ((cands path reg).filter (fun d => scD d = maxSC path reg)).Perm
      ((cands path reg').filter (fun d => scD d = maxSC path reg')) := by
    rw [← hmax]
    exact hc.filter _
  have hperm1 : (getStoragesByPath reg path).Perm (getStoragesByPath reg' path) := by
    rw [getStoragesByPath, getStoragesByPath, gsbp_result, gsbp_result]
    exact ((List.perm_insertionSort leMP _).trans hf).trans
      (List.perm_insertionSort leMP _).symm
  have hsymm : ∀ {x y : Driver},
      x.storage.mountPath ≠ y.storage.mountPath → y.storage.mountPath ≠ x.storage.mountPath :=
    fun h => h.symm
  have hpw1 : (getStoragesByPath reg path).Pairwise
      (fun a b => a.storage.mountPath ≠ b.storage.mountPath) := by
    rw [getStoragesByPath, gsbp_result]
    have h1 : (reg.map Prod.snd).Pairwise
        (fun a b => a.storage.mountPath ≠ b.storage.mountPath) :=
      List.pairwise_map.mpr hpw
    have h2 : (cands path reg).Pairwise
        (fun a b => a.storage.mountPath ≠ b.storage.mountPath) := by
      rw [cands]
      exact h1.filter _
    exact ((List.perm_insertionSort leMP _).pairwise_iff hsymm).mpr (h2.filter _)
  have hpw2 : (getStoragesByPath reg' path).Pairwise
      (fun a b => a.storage.mountPath ≠ b.storage.mountPath) :=
    (hperm1.pairwise_iff hsymm).mp hpw1
  have hs1 : List.Sorted ltNeMP (getStoragesByPath reg path) :=
    ((gsbp_sorted reg path).and hpw1).imp fun h => h
  have hs2 : List.Sorted ltNeMP (getStoragesByPath reg' path) :=
    ((gsbp_sorted reg' path).and hpw2).imp fun h => h
  exact List.eq_of_perm_of_sorted hperm1 hs1 hs2

/-- C8: the resolver output is sorted by mount path ascending, and — when
the registered drivers carry pairwise distinct mount paths — it is the same
list for any iteration order (any permutation) of the registry. -/
theorem c8_sorted_deterministic (reg reg' : Reg) (path : String) :
    List.Sorted leMP (getStoragesByPath reg path) ∧
      (reg.Pairwise (fun a b => a.2.storage.mountPath ≠ b.2.storage.mountPath) →
        reg.Perm reg' → getStoragesByPath reg path = getStoragesByPath reg' path) :=
  ⟨gsbp_sorted reg path, fun hpw hperm => gsbp_det hpw hperm⟩

/-! Balancer lemmas. -/

theorem gbs_fresh {reg : Reg} {bm : BMap} {p : String} {d0 d1 : Driver} {rest : List Driver}
    (hg : getStoragesByPath reg (StandardizePath p) = d0 :: d1 :: rest)
    (hbm : lkup bm (GetActualVirtualPath d0.storage.mountPath) = none) :
    GetBalancedStorage reg bm p =
      (some d0, alStore bm (GetActualVirtualPath d0.storage.mountPath) 0) := by
  simp only [GetBalancedStorage, hg, hbm]
  rfl

theorem gbs_cursor {reg : Reg} {bm : BMap} {p : String} {d0 d1 : Driver} {rest : List Driver}
    {c : Nat}
    (hg : getStoragesByPath reg (StandardizePath p) = d0 :: d1 :: rest)
    (hbm : lkup bm (GetActualVirtualPath d0.storage.mountPath) = some c) :
    GetBalancedStorage reg bm p =
      ((d0 :: d1 :: rest).get? ((c + 1) % (d0 :: d1 :: rest).length),
        alStore bm (GetActualVirtualPath d0.storage.mountPath)
          ((c + 1) % (d0 :: d1 :: rest).length)) := by
  simp only [GetBalancedStorage, hg, hbm]

theorem balancedCalls_cursor {reg : Reg} {p : String} {d0 d1 : Driver} {rest : List Driver}
    (hg : getStoragesByPath reg (StandardizePath p) = d0 :: d1 :: rest) :
    ∀ (m : Nat) (bm : BMap) (c : Nat),
      lkup bm (GetActualVirtualPath d0.storage.mountPath) = some c →
      balancedCalls reg p bm m =
        (List.range m).map
          (fun k => (d0 :: d1 :: rest).get? ((c + 1 + k) % (d0 :: d1 :: rest).length)) := by
  intro m
  induction m with
  | zero => intro bm c _; rfl
  | succ n ih =>
    intro bm c hbm
    rw [balancedCalls, gbs_cursor hg hbm]
    rw [List.range_succ_eq_map, List.map_cons, List.map_map]
    refine congrArg₂ List.cons rfl ?_
    rw [ih (alStore bm (GetActualVirtualPath d0.storage.mountPath)
      ((c + 1) % (d0 :: d1 :: rest).length)) ((c + 1) % (d0 :: d1 :: rest).length)
      (lkup_alStore_self _ _ _)]
    refine congrArg (fun f => List.map f (List.range n)) (funext fun k => ?_)
    refine congrArg _ ?_
    have h1 : (c + 1) % (d0 :: d1 :: rest).length + 1 + k =
        (c + 1) % (d0 :: d1 :: rest).length + (1 + k) := by omega
    rw [h1, Nat.mod_add_mod]
    refine congrArg (fun x => x % (d0 :: d1 :: rest).length) ?_
    omega

/-- C2 (amended): over a balance group of size N reachable at a fixed
registry state, with no cursor stored yet, N + 1 consecutive calls of
GetBalancedStorage return the group members at indices 0, 1, ..., N - 1 and
then wrap back to index 0. -/
theorem c2_round_robin (reg : Reg) (p : String) (bm : BMap) (d0 d1 : Driver)
    (rest : List Driver)
    (hg : getStoragesByPath reg (StandardizePath p) = d0 :: d1 :: rest)
    (hbm : lkup bm (GetActualVirtualPath d0.storage.mountPath) = none) :
    balancedCalls reg p bm ((d0 :: d1 :: rest).length + 1) =
      (List.range ((d0 :: d1 :: rest).length + 1)).map
        (fun k => (d0 :: d1 :: rest).get? (k % (d0 :: d1 :: rest).length)) := by
  rw [balancedCalls, gbs_fresh hg hbm]
  rw [List.range_succ_eq_map, List.map_cons, List.map_map]
  refine congrArg₂ List.cons ?_ ?_
  · rw [Nat.zero_mod]
    rfl
  · rw [balancedCalls_cursor hg _ _ 0 (lkup_alStore_self _ _ _)]
    refine congrArg (fun f => List.map f (List.range _)) (funext fun k => ?_)
    refine congrArg _ (congrArg (fun x => x % (d0 :: d1 :: rest).length) ?_)
    omega

/-- C9: whenever the resolved group has at least two members, the balanced
selection is always an element of that group: the index used is 0 when no
cursor exists, and otherwise the stored cursor plus one reduced modulo the
current group size, which is in range even for a stale cursor. -/
theorem c9_balanced_safe (reg : Reg) (bm : BMap) (p : String) (d0 d1 : Driver)
    (rest : List Driver)
    (hg : getStoragesByPath reg (StandardizePath p) = d0 :: d1 :: rest) :
    ∃ i d, i < (d0 :: d1 :: rest).length ∧ (d0 :: d1 :: rest).get? i = some d ∧
      (GetBalancedStorage reg bm p).1 = some d ∧ d ∈ d0 :: d1 :: rest ∧
      (i = 0 ∨ ∃ c, lkup bm (GetActualVirtualPath d0.storage.mountPath) = some c ∧
        i = (c + 1) % (d0 :: d1 :: rest).length) := by
  cases hbm : lkup bm (GetActualVirtualPath d0.storage.mountPath) with
  | none =>
    refine ⟨0, d0, by simp, rfl, ?_, List.mem_cons_self _ _, Or.inl rfl⟩
    rw [gbs_fresh hg hbm]
  | some c =>
    have hN : 0 < (d0 :: d1 :: rest).length := by simp
    have hi : (c + 1) % (d0 :: d1 :: rest).length < (d0 :: d1 :: rest).length :=
      Nat.mod_lt _ hN
    refine ⟨(c + 1) % (d0 :: d1 :: rest).length,
      (d0 :: d1 :: rest).get ⟨(c + 1) % (d0 :: d1 :: rest).length, hi⟩, hi,
      List.get?_eq_get hi, ?_, List.get_mem _ _ _, Or.inr ⟨c, rfl, rfl⟩⟩
    rw [gbs_cursor hg hbm, List.get?_eq_get hi]

/-! Synthesizer lemmas. -/

theorem gsvfStep_cases (p : String) (acc : List Obj × List String) (d : Driver) :
    gsvfStep p acc d = acc ∨
      ∃ nm, gsvfStep p acc d =
        (acc.1 ++ [⟨nm, 0, d.storage.modified, true⟩], acc.2 ++ [nm]) := by
  by_cases h1 : IsBalance d.storage.mountPath = true
  · left
    rw [gsvfStep, if_pos h1]
  · by_cases h2 : d.storage.mountPath.data.length ≤ p.data.length
    · left
      rw [gsvfStep, if_neg h1, if_pos h2]
    · by_cases h3 : hasPfx p d.storage.mountPath = false
      · left
        rw [gsvfStep, if_neg h1, if_neg h2, if_pos h3]
      · by_cases h4 : firstSeg (trimPfx p d.storage.mountPath) ∈ acc.2
        · left
          rw [gsvfStep, if_neg h1, if_neg h2, if_neg h3]
          exact if_pos h4
        · right
          refine ⟨firstSeg (trimPfx p d.storage.mountPath), ?_⟩
          rw [gsvfStep, if_neg h1, if_neg h2, if_neg h3]
          exact if_neg h4

theorem gsvf_fold_source (p : String) :
    ∀ (l : List Driver) (fs : List Obj) (seen : List String) (obj : Obj),
      obj ∈ (l.foldl (gsvfStep p) (fs, seen)).1 →
      obj ∈ fs ∨ ∃ dd, dd ∈ l ∧ obj.modified = dd.storage.modified ∧
        obj.size = 0 ∧ obj.isFolder = true := by
  intro l
  induction l with
  | nil => intro fs seen obj h; exact Or.inl h
  | cons d t ih =>
    intro fs seen obj h
    rw [List.foldl_cons] at h
    rcases gsvfStep_cases p (fs, seen) d with he | ⟨nm, he⟩
    · rw [he] at h
      rcases ih fs seen obj h with h1 | ⟨dd, hdd, h2⟩
      · exact Or.inl h1
      · exact Or.inr ⟨dd, List.mem_cons_of_mem _ hdd, h2⟩
    · rw [he] at h
      rcases ih _ _ obj h with h1 | ⟨dd, hdd, h2⟩
      · rcases List.mem_append.mp h1 with h2 | h2
        · exact Or.inl h2
        · have hobj : obj = ⟨nm, 0, d.storage.modified, true⟩ := by simpa using h2
          exact Or.inr ⟨d, List.mem_cons_self _ _, by rw [hobj], by rw [hobj], by rw [hobj]⟩
      · exact Or.inr ⟨dd, List.mem_cons_of_mem _ hdd, h2⟩

theorem mem_gsvf_source {reg : Reg} {pre : String} {obj : Obj}
    (h : obj ∈ GetStorageVirtualFilesByPath reg pre) :
    ∃ dd, dd ∈ regValues reg ∧ obj.modified = dd.storage.modified ∧
      obj.size = 0 ∧ obj.isFolder = true := by
  rw [GetStorageVirtualFilesByPath] at h
  rcases gsvf_fold_source _ _ _ _ _ h with h1 | ⟨dd, hdd, h2⟩
  · cases h1
  · exact ⟨dd, (List.perm_insertionSort leIdxMP (regValues reg)).mem_iff.mp hdd, h2⟩

/-- Registry of the example mount set /a/b, /a/c, /a/d/e, /a/b.balance1,
/av, with the given modification timestamps and distinct display indices in
mount order. -/
def reg3 (m1 m2 m3 m4 m5 : Nat) : Reg :=
  [("/a/b", ⟨⟨1, "/a/b", "local", 1, m1, ""⟩, true, true⟩),
   ("/a/c", ⟨⟨2, "/a/c", "local", 2, m2, ""⟩, true, true⟩),
   ("/a/d/e", ⟨⟨3, "/a/d/e", "local", 3, m3, ""⟩, true, true⟩),
   ("/a/b.balance1", ⟨⟨4, "/a/b.balance1", "local", 4, m4, ""⟩, true, true⟩),
   ("/av", ⟨⟨5, "/av", "local", 5, m5, ""⟩, true, true⟩)]

/-- C3 counterexample: over the example mount set, listing the root yields
the two synthetic folders a and av — the mount /av is itself one segment
below the root — so the claimed singleton set is wrong. -/
theorem c3_counterexample :
    (GetStorageVirtualFilesByPath (reg3 0 0 0 0 0) ("/")).map Obj.name = ["a", "av"] ∧
      ¬ (GetStorageVirtualFilesByPath (reg3 0 0 0 0 0) ("/")).map Obj.name = ["a"] := by
  decide

/-- C3 (amended): over the example mount set, listing the root yields
exactly the synthetic folders a and av, and listing /a yields exactly b, c,
d with the balance sibling suppressed; every entry has size 0, is a folder,
and carries the Modified timestamp of the winning storage in (Index,
MountPath) order. -/
theorem c3_virtual_children (m1 m2 m3 m4 m5 : Nat) :
    GetStorageVirtualFilesByPath (reg3 m1 m2 m3 m4 m5) ("/") =
      [⟨"a", 0, m1, true⟩, ⟨"av", 0, m5, true⟩] ∧
    GetStorageVirtualFilesByPath (reg3 m1 m2 m3 m4 m5) ("/a") =
      [⟨"b", 0, m1, true⟩, ⟨"c", 0, m2, true⟩, ⟨"d", 0, m3, true⟩] :=
  ⟨rfl, rfl⟩

/-! Lifecycle lemmas: shapes of successful and failing runs. -/

theorem delete_success_shape {delOk : Bool} {w : World} {id : Nat} {w' : World}
    (h : DeleteStorageById delOk w id = (w', none)) :
    ∃ st d, dbGetStorageById w.db id = Except.ok st ∧
      lkup w.reg st.mountPath = some d ∧ d.dropOk = true ∧ delOk = true ∧
      w' = { db := dbDeleteById w.db id, reg := alErase w.reg st.mountPath } := by
  cases hrow : dbGetStorageById w.db id with
  | error e1 =>
    rw [DeleteStorageById, hrow] at h
    simp at h
  | ok st =>
    cases hlk : lkup w.reg st.mountPath with
    | none =>
      rw [DeleteStorageById, hrow] at h
      simp only [GetStorageByVirtualPath, hlk] at h
      simp at h
    | some d =>
      cases hdp : d.dropOk with
      | false =>
        rw [DeleteStorageById, hrow] at h
        simp only [GetStorageByVirtualPath, hlk] at h
        rw [Driver.dropResult, if_neg (by simp [hdp])] at h
        simp at h
      | true =>
        cases hdo : delOk with
        | false =>
          rw [DeleteStorageById, hrow] at h
          simp only [GetStorageByVirtualPath, hlk] at h
          rw [Driver.dropResult, if_pos hdp] at h
          rw [if_pos hdo] at h
          simp at h
        | true =>
          rw [DeleteStorageById, hrow] at h
          simp only [GetStorageByVirtualPath, hlk] at h
          rw [Driver.dropResult, if_pos hdp] at h
          rw [if_neg (by simp [hdo])] at h
          exact ⟨st, d, rfl, hlk, hdp, rfl, by
            rw [Prod.mk.injEq] at h
            exact h.1.symm⟩

/-- C4: after a successful DeleteStorageById of a row present in both the
repository and the registry — the registry keying each driver by its own
mount path — the deleted driver appears in no getStoragesByPath result,
every entry of any GetStorageVirtualFilesByPath result stems from a
remaining driver different from it, and GetStorageByVirtualPath on its old
mount path fails with NotFound. -/
theorem c4_delete_removes (delOk : Bool) (w w' : World) (id : Nat) (st : Storage) (d : Driver)
    (hwf : ∀ e ∈ w.reg, e.1 = e.2.storage.mountPath)
    (hrow : dbGetStorageById w.db id = Except.ok st)
    (hdrv : lkup w.reg st.mountPath = some d)
    (hdel : DeleteStorageById delOk w id = (w', none)) :
    (∀ p, d ∉ getStoragesByPath w'.reg p) ∧
      (∀ pre obj, obj ∈ GetStorageVirtualFilesByPath w'.reg pre →
        ∃ dd, dd ∈ regValues w'.reg ∧ dd ≠ d ∧ obj.modified = dd.storage.modified) ∧
      GetStorageByVirtualPath w'.reg st.mountPath = Except.error (Err.notFound st.mountPath) := by
  obtain ⟨st0, d0, hrow0, hdrv0, _, _, hw⟩ := delete_success_shape hdel
  rw [hrow] at hrow0
  injection hrow0 with hst
  subst hst
  rw [hdrv] at hdrv0
  injection hdrv0 with hd
  subst hd
  have hreg : w'.reg = alErase w.reg st.mountPath := by rw [hw]
  have hmp : st.mountPath = d.storage.mountPath := hwf _ (lkup_some_mem hdrv)
  have hnotval : d ∉ regValues w'.reg := by
    rw [hreg]
    intro hmem
    rcases List.mem_map.mp hmem with ⟨e, he, hesnd⟩
    have he2 := mem_alErase.mp he
    have : e.1 = d.storage.mountPath := by rw [hwf _ he2.1, hesnd]
    exact he2.2 (by rw [this, ← hmp])
  refine ⟨?_, ?_, ?_⟩
  · intro p hmem
    have hc := (mem_getStoragesByPath_iff.mp hmem).1
    have := (List.mem_filter.mp hc).1
    exact hnotval this
  · intro pre obj hobj
    rcases mem_gsvf_source hobj with ⟨dd, hdd, h2, _, _⟩
    exact ⟨dd, hdd, fun hddd => hnotval (hddd ▸ hdd), h2⟩
  · rw [GetStorageByVirtualPath, hreg, lkup_alErase_self]

/-- C10: every failing run of DeleteStorageById — missing row, missing
registry entry, failing Drop, or failing database deletion — leaves the
registry mapping unchanged, so exact lookups behave as before the call. -/
theorem c10_delete_error_preserves (delOk : Bool) (w : World) (id : Nat) (w' : World) (e : Err)
    (h : DeleteStorageById delOk w id = (w', some e)) :
    w'.reg = w.reg ∧
      ∀ vp, GetStorageByVirtualPath w'.reg vp = GetStorageByVirtualPath w.reg vp := by
  have hw : w' = w := by
    cases hrow : dbGetStorageById w.db id with
    | error e1 =>
      rw [DeleteStorageById, hrow] at h
      rw [Prod.mk.injEq] at h
      exact h.1.symm
    | ok st =>
      cases hlk : lkup w.reg st.mountPath with
      | none =>
        rw [DeleteStorageById, hrow] at h
        simp only [GetStorageByVirtualPath, hlk] at h
        rw [Prod.mk.injEq] at h
        exact h.1.symm
      | some d =>
        cases hdp : d.dropOk with
        | false =>
          rw [DeleteStorageById, hrow] at h
          simp only [GetStorageByVirtualPath, hlk] at h
          rw [Driver.dropResult, if_neg (by simp [hdp])] at h
          rw [Prod.mk.injEq] at h
          exact h.1.symm
        | true =>
          cases hdo : delOk with
          | false =>
            rw [DeleteStorageById, hrow] at h
            simp only [GetStorageByVirtualPath, hlk] at h
            rw [Driver.dropResult, if_pos hdp] at h
            rw [if_pos hdo] at h
            rw [Prod.mk.injEq] at h
            exact h.1.symm
          | true =>
            rw [DeleteStorageById, hrow] at h
            simp only [GetStorageByVirtualPath, hlk] at h
            rw [Driver.dropResult, if_pos hdp] at h
            rw [if_neg (by simp [hdo])] at h
            simp at h
  subst hw
  exact ⟨rfl, fun _ => rfl⟩

/-- C5: UpdateStorage with a driver type differing from the persisted row's
driver fails with the Immutable-Field error and returns the world unchanged:
no database write, no registry mutation, and the driver's Drop and Init are
never reached. -/
theorem c5_update_driver_immutable (now : Nat) (saveOk : Bool) (w : World) (s old : Storage)
    (hrow : dbGetStorageById w.db s.id = Except.ok old)
    (hne : old.driver ≠ s.driver) :
    UpdateStorage now saveOk w s = (w, some Err.immutableField) := by
  simp only [UpdateStorage, hrow]
  rw [if_pos hne]

theorem update_success_shape {now : Nat} {saveOk : Bool} {w : World} {s : Storage} {w' : World}
    (h : UpdateStorage now saveOk w s = (w', none)) :
    ∃ old d, dbGetStorageById w.db s.id = Except.ok old ∧ saveOk = true ∧
      lkup w.reg old.mountPath = some d ∧ d.dropOk = true ∧ d.initOk = true ∧
      w' = { db := dbSave w.db { s with modified := now, mountPath := StandardizePath s.mountPath },
             reg := alStore
               (if old.mountPath ≠ StandardizePath s.mountPath then alErase w.reg old.mountPath
                 else w.reg)
               (StandardizePath s.mountPath)
               { d with storage :=
                  { s with modified := now, mountPath := StandardizePath s.mountPath } } } := by
  cases hrow : dbGetStorageById w.db s.id with
  | error e1 =>
    simp only [UpdateStorage, hrow] at h
    simp at h
  | ok old =>
    by_cases hdrv : old.driver = s.driver
    · cases hsave : saveOk with
      | false =>
        simp only [UpdateStorage, hrow] at h
        rw [if_neg (by simp [hdrv]), if_pos hsave] at h
        simp at h
      | true =>
        cases hlk : lkup w.reg old.mountPath with
        | none =>
          simp only [UpdateStorage, hrow] at h
          rw [if_neg (by simp [hdrv]), if_neg (by simp [hsave])] at h
          simp only [hlk] at h
          simp at h
        | some d =>
          cases hdp : d.dropOk with
          | false =>
            simp only [UpdateStorage, hrow] at h
            rw [if_neg (by simp [hdrv]), if_neg (by simp [hsave])] at h
            simp only [hlk] at h
            rw [Driver.dropResult, if_neg (by simp [hdp])] at h
            simp at h
          | true =>
            cases hini : d.initOk with
            | false =>
              simp only [UpdateStorage, hrow] at h
              rw [if_neg (by simp [hdrv]), if_neg (by simp [hsave])] at h
              simp only [hlk] at h
              rw [Driver.dropResult, if_pos hdp] at h
              simp only [] at h
              rw [Driver.initRun, if_neg (by simp [hini])] at h
              simp at h
            | true =>
              simp only [UpdateStorage, hrow] at h
              rw [if_neg (by simp [hdrv]), if_neg (by simp [hsave])] at h
              simp only [hlk] at h
              rw [Driver.dropResult, if_pos hdp] at h
              simp only [] at h
              rw [Driver.initRun, if_pos hini] at h
              simp only [] at h
              rw [Prod.mk.injEq] at h
              exact ⟨old, d, rfl, rfl, hlk, hdp, hini, h.1.symm⟩
    · simp only [UpdateStorage, hrow] at h
      rw [if_pos (by simp [hdrv])] at h
      simp at h

/-- C6: a successful UpdateStorage whose normalized new mount path differs
from the old one leaves the re-initialized driver reachable under the new
mount path and makes the old mount path fail with NotFound. -/
theorem c6_update_rename (now : Nat) (saveOk : Bool) (w : World) (s old : Storage) (w' : World)
    (hrow : dbGetStorageById w.db s.id = Except.ok old)
    (hsucc : UpdateStorage now saveOk w s = (w', none))
    (hne : StandardizePath s.mountPath ≠ old.mountPath) :
    ∃ d, lkup w.reg old.mountPath = some d ∧
      GetStorageByVirtualPath w'.reg (StandardizePath s.mountPath) =
        Except.ok { d with storage :=
          { s with modified := now, mountPath := StandardizePath s.mountPath } } ∧
      GetStorageByVirtualPath w'.reg old.mountPath =
        Except.error (Err.notFound old.mountPath) := by
  obtain ⟨old0, d, hrow0, _, hlk, _, _, hw⟩ := update_success_shape hsucc
  rw [hrow] at hrow0
  injection hrow0 with hold
  subst hold
  have hreg : w'.reg =
      alStore (alErase w.reg old.mountPath) (StandardizePath s.mountPath)
        { d with storage := { s with modified := now, mountPath := StandardizePath s.mountPath } } := by
    rw [hw]
    rw [if_pos (fun hh => hne hh.symm)]
  refine ⟨d, hlk, ?_, ?_⟩
  · rw [GetStorageByVirtualPath, hreg, lkup_alStore_self]
  · rw [GetStorageByVirtualPath, hreg, lkup_alStore_ne _ _ _ _ (Ne.symm hne), lkup_alErase_self]

theorem create_success_shape {tab : List (String × Driver)} {createOk : Bool} {now : Nat}
    {w : World} {s : Storage} {w' : World}
    (h : CreateStorage tab createOk now w s = (w', none)) :
    ∃ d0, lkup tab s.driver = some d0 ∧ createOk = true ∧ d0.initOk = true ∧
      w' = { db := w.db ++
               [{ s with modified := now, mountPath := StandardizePath s.mountPath, id := freshId w.db }],
             reg := alStore w.reg (StandardizePath s.mountPath)
               { d0 with storage :=
                  { s with modified := now, mountPath := StandardizePath s.mountPath, id := freshId w.db } } } := by
  cases hlk : lkup tab s.driver with
  | none =>
    simp only [CreateStorage, hlk] at h
    simp at h
  | some d0 =>
    cases hcr : createOk with
    | false =>
      simp only [CreateStorage, hlk] at h
      rw [if_pos hcr] at h
      simp at h
    | true =>
      cases hini : d0.initOk with
      | false =>
        simp only [CreateStorage, hlk] at h
        rw [if_neg (by simp [hcr])] at h
        rw [Driver.initRun, if_neg (by simp [hini])] at h
        simp at h
      | true =>
        simp only [CreateStorage, hlk] at h
        rw [if_neg (by simp [hcr])] at h
        rw [Driver.initRun, if_pos hini] at h
        simp only [] at h
        rw [Prod.mk.injEq] at h
        exact ⟨d0, rfl, rfl, hini, h.1.symm⟩

/-- C7: after a successful CreateStorage, the exact lookup on the normalized
mount path returns a driver whose exposed configuration carries the id the
repository assigned to the persisted row, and that row is in the
repository. -/
theorem c7_create_id (tab : List (String × Driver)) (createOk : Bool) (now : Nat)
    (w : World) (s : Storage) (w' : World)
    (hsucc : CreateStorage tab createOk now w s = (w', none)) :
    ∃ d, GetStorageByVirtualPath w'.reg (StandardizePath s.mountPath) = Except.ok d ∧
      d.storage.id = freshId w.db ∧ d.storage ∈ w'.db := by
  obtain ⟨d0, _, _, _, hw⟩ := create_success_shape hsucc
  refine ⟨{ d0 with storage :=
    { s with modified := now, mountPath := StandardizePath s.mountPath, id := freshId w.db } },
    ?_, rfl, ?_⟩
  · rw [GetStorageByVirtualPath, hw]
    rw [lkup_alStore_self]
  · rw [hw]
    exact List.mem_append_right _ (List.mem_singleton.mpr rfl)

/-! Concrete scenarios used by the counterexamples and witnesses. -/

/-- Primary member of a two-element balance group at /x. -/
def stX : Storage := ⟨1, "/x", "local", 1, 0, ""⟩

/-- Driver of the primary member. -/
def dX : Driver := ⟨stX, true, true⟩

/-- Balance sibling of /x. -/
def stXb : Storage := ⟨2, "/x.balance1", "local", 2, 0, ""⟩

/-- Driver of the balance sibling. -/
def dXb : Driver := ⟨stXb, true, true⟩

/-- Registry holding the balance group in one iteration order. -/
def regBal : Reg := [("/x", dX), ("/x.balance1", dXb)]

/-- The same registry in the opposite iteration order. -/
def regBalRev : Reg := [("/x.balance1", dXb), ("/x", dX)]

/-- World with one mounted storage at /x. -/
def wDel : World := ⟨[stX], [("/x", dX)]⟩

/-- Empty world. -/
def wEmpty : World := ⟨[], []⟩

/-- Update request that changes the driver type of row 1. -/
def sUpd : Storage := ⟨1, "/y", "other", 1, 0, ""⟩

/-- Update request that renames row 1 from /x to /z. -/
def sZ : Storage := ⟨1, "/z", "local", 1, 0, ""⟩

/-- World after the successful rename of /x to /z at time 7. -/
def wUpd : World :=
  ⟨[⟨1, "/z", "local", 1, 7, ""⟩], [("/z", ⟨⟨1, "/z", "local", 1, 7, ""⟩, true, true⟩)]⟩

/-- Driver factory table holding the local constructor. -/
def tabW : List (String × Driver) := [("local", ⟨⟨0, "", "local", 0, 0, ""⟩, true, true⟩)]

/-- Creation request for a mount at /n. -/
def sNew : Storage := ⟨0, "/n", "local", 1, 0, ""⟩

/-- World after the successful creation of /n at time 7. -/
def wCre : World :=
  ⟨[⟨1, "/n", "local", 1, 7, ""⟩], [("/n", ⟨⟨1, "/n", "local", 1, 7, ""⟩, true, true⟩)]⟩

/-- C2 counterexample: on the two-member balance group at /x with no cursor
stored, the first call returns the index-0 member but the second call
already returns the index-1 member, so the first two calls do not both
return index 0. -/
theorem c2_counterexample :
    balancedCalls regBal ("/x") [] 2 = [some dX, some dXb] ∧
      ¬ balancedCalls regBal ("/x") [] 2 = [some dX, some dX] := by
  decide

/-- Witness for c2_round_robin on the concrete group [dX, dXb]. -/
theorem c2_round_robin_witness :
    getStoragesByPath regBal (StandardizePath ("/x")) = [dX, dXb] ∧
      lkup ([] : BMap) (GetActualVirtualPath dX.storage.mountPath) = none ∧
      balancedCalls regBal ("/x") [] 3 =
        (List.range 3).map (fun k => [dX, dXb].get? (k % 2)) :=
  ⟨by decide, by decide,
    c2_round_robin regBal ("/x") [] dX dXb [] (by decide) (by decide)⟩

/-- Witness for c8_sorted_deterministic on the two iteration orders of the
balance-group registry. -/
theorem c8_witness :
    List.Sorted leMP (getStoragesByPath regBal ("/x")) ∧
      getStoragesByPath regBal ("/x") = getStoragesByPath regBalRev ("/x") :=
  ⟨(c8_sorted_deterministic regBal regBalRev ("/x")).1,
    (c8_sorted_deterministic regBal regBalRev ("/x")).2 (by decide) (by decide)⟩

/-- Witness for c9_balanced_safe with a stale cursor value 5 left over from
an earlier, larger group. -/
theorem c9_witness :
    getStoragesByPath regBal (StandardizePath ("/x")) = [dX, dXb] ∧
      (∃ i d, i < 2 ∧ [dX, dXb].get? i = some d ∧
        (GetBalancedStorage regBal [("/x", 5)] ("/x")).1 = some d ∧ d ∈ [dX, dXb] ∧
        (i = 0 ∨ ∃ c, lkup [("/x", 5)] (GetActualVirtualPath dX.storage.mountPath) = some c ∧
          i = (c + 1) % 2)) :=
  ⟨by decide, c9_balanced_safe regBal [("/x", 5)] ("/x") dX dXb [] (by decide)⟩

/-- Witness for c4_delete_removes on the one-mount world. -/
theorem c4_witness :
    (∀ e ∈ wDel.reg, e.1 = e.2.storage.mountPath) ∧
      dbGetStorageById wDel.db 1 = Except.ok stX ∧
      lkup wDel.reg stX.mountPath = some dX ∧
      DeleteStorageById true wDel 1 = (wEmpty, none) ∧
      dX ∉ getStoragesByPath wEmpty.reg ("/x") ∧
      GetStorageByVirtualPath wEmpty.reg stX.mountPath =
        Except.error (Err.notFound stX.mountPath) :=
  ⟨by decide, rfl, by decide, by decide,
    (c4_delete_removes true wDel wEmpty 1 stX dX (by decide) rfl (by decide)
      (by decide)).1 ("/x"),
    (c4_delete_removes true wDel wEmpty 1 stX dX (by decide) rfl (by decide)
      (by decide)).2.2⟩

/-- Witness for c5_update_driver_immutable: changing the driver type of row
1 from local to other is rejected without any state change. -/
theorem c5_witness :
    dbGetStorageById wDel.db sUpd.id = Except.ok stX ∧ stX.driver ≠ sUpd.driver ∧
      UpdateStorage 7 true wDel sUpd = (wDel, some Err.immutableField) :=
  ⟨rfl, by decide,
    c5_update_driver_immutable 7 true wDel sUpd stX rfl (by decide)⟩

/-- Witness for c6_update_rename: renaming /x to /z re-registers the driver
under /z and makes /x fail with NotFound. -/
theorem c6_witness :
    dbGetStorageById wDel.db sZ.id = Except.ok stX ∧
      UpdateStorage 7 true wDel sZ = (wUpd, none) ∧
      StandardizePath sZ.mountPath ≠ stX.mountPath ∧
      (∃ d, lkup wDel.reg stX.mountPath = some d ∧
        GetStorageByVirtualPath wUpd.reg (StandardizePath sZ.mountPath) =
          Except.ok { d with storage :=
            { sZ with modified := 7, mountPath := StandardizePath sZ.mountPath } } ∧
        GetStorageByVirtualPath wUpd.reg stX.mountPath =
          Except.error (Err.notFound stX.mountPath)) :=
  ⟨rfl, by decide, by decide,
    c6_update_rename 7 true wDel sZ stX wUpd rfl (by decide) (by decide)⟩

/-- Witness for c7_create_id: creating /n in the empty world makes the
driver reachable with the freshly assigned id 1. -/
theorem c7_witness :
    CreateStorage tabW true 7 wEmpty sNew = (wCre, none) ∧
      (∃ d, GetStorageByVirtualPath wCre.reg (StandardizePath sNew.mountPath) = Except.ok d ∧
        d.storage.id = freshId wEmpty.db ∧ d.storage ∈ wCre.db) :=
  ⟨by decide, c7_create_id tabW true 7 wEmpty sNew wCre (by decide)⟩

/-- Witness for c10_delete_error_preserves: deleting a missing id fails and
leaves the registry untouched. -/
theorem c10_witness :
    DeleteStorageById true wEmpty 1 =
      (wEmpty, some (Err.wrapped ("failed get storage") (Err.notFound ("storage")))) ∧
      wEmpty.reg = wEmpty.reg ∧
      GetStorageByVirtualPath wEmpty.reg ("/q") = GetStorageByVirtualPath wEmpty.reg ("/q") :=
  ⟨by decide,
    (c10_delete_error_preserves true wEmpty 1 wEmpty
      (Err.wrapped ("failed get storage") (Err.notFound ("storage"))) (by decide)).1,
    (c10_delete_error_preserves true wEmpty 1 wEmpty
      (Err.wrapped ("failed get storage") (Err.notFound ("storage"))) (by decide)).2 ("/q")⟩

end AList
